import Mathlib

/-!
Verification of the LOS / coverage engine of the Thales-Radar-Position
repository.  The Python sources (`LOS.py`, `coverage_analysis.py`,
`site_location_masks.py`) are embedded shallowly: numpy float arrays become
`List ℚ` / `List (List ℚ)` and real arithmetic is modelled exactly by `ℚ`;
fallible lookups return `Option ℚ`; a raised exception becomes `none` at the
function boundary.  `np.searchsorted(xs, x)` (side "left") on an ascending
array returns the number of entries strictly below `x`, which is `countP`;
`z_terrain` only ever applies it to the ascending reordering of its axes.
-/

/-- Element `xs[i]` of a numpy 1-D array (default 0 outside the range). -/
def elt (xs : List ℚ) (i : ℕ) : ℚ := xs.getD i 0

/-- Element `Z[i, j]` of a numpy 2-D array (default 0 outside the range). -/
def zAt (Z : List (List ℚ)) (i j : ℕ) : ℚ := (Z.getD i []).getD j 0

/-- The array's first element `xs[0]`. -/
def firstD (xs : List ℚ) : ℚ := elt xs 0

/-- The array's last element `xs[-1]`. -/
def lastD (xs : List ℚ) : ℚ := elt xs (xs.length - 1)

/-- `lats_inc` / `lons_inc` of `z_terrain`: `xs[0] < xs[-1]`. -/
def incOrder (xs : List ℚ) : Bool := decide (firstD xs < lastD xs)

/-- `lat_min` (resp. `lon_min`) of `z_terrain`. -/
def axisMin (xs : List ℚ) : ℚ := if incOrder xs then firstD xs else lastD xs

/-- `lat_max` (resp. `lon_max`) of `z_terrain`. -/
def axisMax (xs : List ℚ) : ℚ := if incOrder xs then lastD xs else firstD xs

/-- The in-bounds test of `z_terrain`:
`lat_min <= lat <= lat_max and lon_min <= lon <= lon_max`. -/
def inBBox (lat lon : ℚ) (lats lons : List ℚ) : Bool :=
  decide (axisMin lats ≤ lat) && decide (lat ≤ axisMax lats) &&
  decide (axisMin lons ≤ lon) && decide (lon ≤ axisMax lons)

/-- `lats_s` / `lons_s` of `z_terrain`: the axis, reversed when stored
descending (`xs if inc else xs[::-1]`). -/
def sortedAxis (xs : List ℚ) : List ℚ := if incOrder xs then xs else xs.reverse

/-- `Z_s` of `z_terrain`: the elevation matrix with row (resp. column) order
flipped when the latitude (resp. longitude) axis is stored descending. -/
def orientZ (lats lons : List ℚ) (Z : List (List ℚ)) : List (List ℚ) :=
  let Zr := if incOrder lats then Z else Z.reverse
  if incOrder lons then Zr else Zr.map List.reverse

/-- `np.searchsorted(xs, x)` with side "left" on an ascending array:
the number of entries strictly below `x`. -/
def searchsorted (xs : List ℚ) (x : ℚ) : ℕ := xs.countP (fun y => decide (y < x))

/-- `int(np.clip(i, 1, n - 1))`. -/
def clipIdx (i n : ℕ) : ℕ := min (max i 1) (n - 1)

/-- The upper bracketing index `i1` (resp. `j1`) of `z_terrain`:
`np.clip(np.searchsorted(xs_s, x), 1, len(xs_s) - 1)`. -/
def cellIdx (xs : List ℚ) (x : ℚ) : ℕ := clipIdx (searchsorted xs x) xs.length

/-- The enclosing grid cell read by `z_terrain`: bracketing coordinates
`lat0, lat1, lon0, lon1` and the four corner elevations. -/
structure Cell where
  lat0 : ℚ
  lat1 : ℚ
  lon0 : ℚ
  lon1 : ℚ
  z00 : ℚ
  z01 : ℚ
  z10 : ℚ
  z11 : ℚ

/-- Lines 61-73 of `LOS.py`: locate the bracketing indices in the ascending
reordering of the axes and read the bracketing coordinates and the four
corner elevations. -/
def locateCell (lat lon : ℚ) (lats lons : List ℚ) (Z : List (List ℚ)) : Cell :=
  let lats_s := sortedAxis lats
  let lons_s := sortedAxis lons
  let Z_s := orientZ lats lons Z
  let i1 := cellIdx lats_s lat
  let j1 := cellIdx lons_s lon
  let i0 := i1 - 1
  let j0 := j1 - 1
  { lat0 := elt lats_s i0, lat1 := elt lats_s i1
    lon0 := elt lons_s j0, lon1 := elt lons_s j1
    z00 := zAt Z_s i0 j0, z01 := zAt Z_s i0 j1
    z10 := zAt Z_s i1 j0, z11 := zAt Z_s i1 j1 }

/-- The denominator guard `1e-12` of `z_terrain`. -/
def epsGuard : ℚ := 1 / 10 ^ 12

/-- Lines 79-84 of `LOS.py`: the bilinear blend of the four corners with the
epsilon-guarded fractional offsets `t` and `u`. -/
def bilinear (c : Cell) (lat lon : ℚ) : ℚ :=
  let t := (lat - c.lat0) / (c.lat1 - c.lat0 + epsGuard)
  let u := (lon - c.lon0) / (c.lon1 - c.lon0 + epsGuard)
  (1 - t) * ((1 - u) * c.z00 + u * c.z01) + t * ((1 - u) * c.z10 + u * c.z11)

/-- The same bilinear blend with the exact (guard-free) fractional offsets
`t = (lat - lat0) / (lat1 - lat0)`, `u = (lon - lon0) / (lon1 - lon0)`. -/
def bilinearExact (c : Cell) (lat lon : ℚ) : ℚ :=
  let t := (lat - c.lat0) / (c.lat1 - c.lat0)
  let u := (lon - c.lon0) / (c.lon1 - c.lon0)
  (1 - t) * ((1 - u) * c.z00 + u * c.z01) + t * ((1 - u) * c.z10 + u * c.z11)

/-- `z_terrain` of `LOS.py`: bilinear terrain elevation at `(lat, lon)`;
`none` when out of the bounding rectangle or when a corner of the enclosing
cell carries the negative no-data sentinel. -/
def z_terrain (lat lon : ℚ) (lats lons : List ℚ) (Z : List (List ℚ)) :
    Option ℚ :=
  if inBBox lat lon lats lons then
    let c := locateCell lat lon lats lons Z
    if min (min c.z00 c.z01) (min c.z10 c.z11) < 0 then none
    else some (bilinear c lat lon)
  else none

/-- `z_ligne` of `LOS.py`: altitude on the radar→target line at fraction `s`. -/
def z_ligne (s z_radar_m z_target_m : ℚ) : ℚ :=
  z_radar_m + s * (z_target_m - z_radar_m)

/-- `fl_to_m` of `LOS.py`: `FL * 100.0 * 0.3048`. -/
def fl_to_m (FL : ℚ) : ℚ := FL * 100 * (0.3048 : ℚ)

/-- One interior iteration of the `los_visible` loop at index `k`: `true`
when the sample neither lacks data nor blocks the line. -/
def losSample (radar_lat radar_lon z_radar target_lat target_lon
    target_alt_m_msl : ℚ) (lats lons : List ℚ) (Z : List (List ℚ))
    (n_samples : ℕ) (margin_m : ℚ) (k : ℕ) : Bool :=
  let s : ℚ := (k : ℚ) / (n_samples : ℚ)
  let lat := radar_lat + s * (target_lat - radar_lat)
  let lon := radar_lon + s * (target_lon - radar_lon)
  match z_terrain lat lon lats lons Z with
  | none => false
  | some z_ground =>
      decide (z_ground + margin_m < z_ligne s z_radar target_alt_m_msl)

/-- `los_visible` of `LOS.py`: `false` when the observer's ground lookup
fails; otherwise scan interior samples `k = 1 .. n_samples - 1` in order and
fail on the first no-data or blocked sample. -/
def los_visible (radar_lat radar_lon radar_height_agl_m : ℚ)
    (target_lat target_lon target_alt_m_msl : ℚ)
    (lats lons : List ℚ) (Z : List (List ℚ))
    (n_samples : ℕ) (margin_m : ℚ) : Bool :=
  match z_terrain radar_lat radar_lon lats lons Z with
  | none => false
  | some z_ground_r =>
      let z_radar := z_ground_r + radar_height_agl_m
      (List.range' 1 (n_samples - 1)).all
        (losSample radar_lat radar_lon z_radar target_lat target_lon
          target_alt_m_msl lats lons Z n_samples margin_m)

/-- `compute_coverage_map` of `coverage_analysis.py`: one boolean entry per
grid cell `(i, j)`, the LOS result for target `(lats[i], lons[j])` at
altitude `fl_to_m flight_level`. -/
def compute_coverage_map (radar_lat radar_lon radar_height_agl_m
    flight_level : ℚ) (lats lons : List ℚ) (Z : List (List ℚ))
    (n_samples : ℕ) (margin_m : ℚ) : List (List Bool) :=
  let target_alt_m_msl := fl_to_m flight_level
  lats.map (fun target_lat =>
    lons.map (fun target_lon =>
      los_visible radar_lat radar_lon radar_height_agl_m
        target_lat target_lon target_alt_m_msl lats lons Z
        n_samples margin_m))

/-- Shape equality of two numpy boolean matrices (`mask.shape != shape`). -/
def maskShapeEq (a b : List (List Bool)) : Bool :=
  a.length == b.length &&
    (List.zip a b).all (fun p => p.1.length == p.2.length)

/-- `np.logical_and` of two boolean matrices. -/
def maskAnd (a b : List (List Bool)) : List (List Bool) :=
  List.zipWith (fun ra rb => List.zipWith (fun x y => x && y) ra rb) a b

/-- `combine_masks` of `site_location_masks.py`: `none` models the raised
`ValueError` (no masks, or a shape differing from the first mask's);
otherwise the left fold of pointwise logical AND over the masks. -/
def combine_masks (masks : List (List (List Bool))) :
    Option (List (List Bool)) :=
  match masks with
  | [] => none
  | m :: rest =>
      if rest.all (fun x => maskShapeEq m x) then
        some (rest.foldl maskAnd m)
      else none

/-- Number of `true` entries of a boolean matrix (`np.sum` on booleans). -/
def countTrue (m : List (List Bool)) : ℕ :=
  (m.map (fun r => r.countP id)).sum

/-- The Monaco bounding-box rule of `mask_french_territory`
(inclusive bounds `43.72 <= lat <= 43.75`, `7.40 <= lon <= 7.44`). -/
def monacoExcluded (lat lon : ℚ) : Bool :=
  decide ((43.72 : ℚ) ≤ lat) && decide (lat ≤ (43.75 : ℚ)) &&
  decide ((7.40 : ℚ) ≤ lon) && decide (lon ≤ (7.44 : ℚ))

/-- The longitude-threshold rule of `mask_french_territory`
(`lon_grid > 7.5`). -/
def italyExcluded (lon : ℚ) : Bool := decide ((7.5 : ℚ) < lon)

/-- The per-cell mask after the first rule (Monaco box) has been applied to
the initially all-`true` mask. -/
def maskFrCellStage1 (lat lon : ℚ) : Bool :=
  if monacoExcluded lat lon then false else true

/-- The per-cell mask after both rules (Monaco box, then longitude
threshold) have been applied. -/
def maskFrCell (lat lon : ℚ) : Bool :=
  if italyExcluded lon then false else maskFrCellStage1 lat lon

/-- `mask_french_territory` of `site_location_masks.py`: starts all `true`,
then clears the Monaco box and everything east of longitude 7.5. -/
def mask_french_territory (lats lons : List ℚ) : List (List Bool) :=
  lats.map (fun lat => lons.map (fun lon => maskFrCell lat lon))

/-- The sample test exactly as the specification words it: the sample
position is the independent linear interpolation of latitude and longitude
between observer and target, the line altitude interpolates between the
observer eye height (at `s = 0`) and the target altitude (at `s = 1`), and
the sample passes when the lookup yields a value strictly above which the
line passes with its margin. -/
def losSampleSpec (radar_lat radar_lon eye target_lat target_lon
    target_alt_m_msl : ℚ) (lats lons : List ℚ) (Z : List (List ℚ))
    (n_samples : ℕ) (margin_m : ℚ) (k : ℕ) : Bool :=
  let s : ℚ := (k : ℚ) / (n_samples : ℚ)
  let lat := (1 - s) * radar_lat + s * target_lat
  let lon := (1 - s) * radar_lon + s * target_lon
  match z_terrain lat lon lats lons Z with
  | none => false
  | some z_ground =>
      decide (z_ground + margin_m < (1 - s) * eye + s * target_alt_m_msl)

/-- The LOS algorithm as the specification words it: `false` when the
observer's ground lookup yields no value; otherwise `true` exactly when
every interior sample index `k` with `1 ≤ k ≤ n_samples - 1` (endpoints
never sampled) has terrain data and stays strictly below the line. -/
def losVisibleSpec (radar_lat radar_lon radar_height_agl_m : ℚ)
    (target_lat target_lon target_alt_m_msl : ℚ)
    (lats lons : List ℚ) (Z : List (List ℚ))
    (n_samples : ℕ) (margin_m : ℚ) : Bool :=
  match z_terrain radar_lat radar_lon lats lons Z with
  | none => false
  | some z_ground_r =>
      let eye := z_ground_r + radar_height_agl_m
      decide (∀ k : ℕ, k < n_samples → 1 ≤ k →
        losSampleSpec radar_lat radar_lon eye target_lat target_lon
          target_alt_m_msl lats lons Z n_samples margin_m k = true)

/-! ### Shared list lemmas -/

theorem elt_eq_getElem (xs : List ℚ) (i : ℕ) (h : i < xs.length) :
    elt xs i = xs[i] := by
  simp [elt, List.getD_eq_getElem?_getD, List.getElem?_eq_getElem h]

theorem getD_getD_map_grid (f : ℚ → ℚ → Bool) (lats lons : List ℚ)
    (i j : ℕ) (hi : i < lats.length) (hj : j < lons.length) :
    ((lats.map (fun la => lons.map (fun lo => f la lo))).getD i []).getD
        j false = f (elt lats i) (elt lons j) := by
  simp [List.getD_eq_getElem?_getD, List.getElem?_map,
    List.getElem?_eq_getElem hi, List.getElem?_eq_getElem hj,
    elt_eq_getElem lats i hi, elt_eq_getElem lons j hj]

/-! ### C7 : flight-level conversion -/

/-- C7: for every flight level `FL`, `fl_to_m FL = FL * 100 * 0.3048`
(with `0.3048 = 3048/10000` exactly, no further rounding), and in
particular `fl_to_m 50 = 1524`. -/
theorem fl_to_m_spec :
    (∀ FL : ℚ, fl_to_m FL = FL * 100 * (3048 / 10000)) ∧
      fl_to_m 50 = 1524 := by
  constructor
  · intro FL
    norm_num [fl_to_m]
  · norm_num [fl_to_m]

/-! ### C9 : the French-territory region mask -/

/-- C9: each entry of `mask_french_territory` is the per-cell pipeline that
starts admissible and applies the Monaco bounding-box rule then the Italy
longitude-threshold rule; a cell ends excluded exactly when it lies inside
the inclusive Monaco box or strictly beyond longitude 7.5; the second rule
never re-admits a cell (final admissibility implies admissibility after the
first rule), and a cell excluded by the earlier Monaco rule stays excluded
in the final mask. -/
theorem mask_french_territory_spec :
    ∀ (lats lons : List ℚ) (i j : ℕ), i < lats.length → j < lons.length →
      ((mask_french_territory lats lons).getD i []).getD j false
          = maskFrCell (elt lats i) (elt lons j)
      ∧ (maskFrCell (elt lats i) (elt lons j) = false ↔
          (((43.72 : ℚ) ≤ elt lats i ∧ elt lats i ≤ (43.75 : ℚ) ∧
            (7.40 : ℚ) ≤ elt lons j ∧ elt lons j ≤ (7.44 : ℚ)) ∨
            (7.5 : ℚ) < elt lons j))
      ∧ (∀ la lo : ℚ, maskFrCell la lo = true → maskFrCellStage1 la lo = true)
      ∧ (∀ la lo : ℚ, monacoExcluded la lo = true → maskFrCell la lo = false) := by
  intro lats lons i j hi hj
  refine ⟨getD_getD_map_grid _ lats lons i j hi hj, ?_, ?_, ?_⟩
  · unfold maskFrCell maskFrCellStage1 italyExcluded monacoExcluded
    split_ifs with h1 h2 <;>
      simp_all [Bool.and_eq_true, decide_eq_true_eq]
  · intro la lo h
    unfold maskFrCell at h
    split_ifs at h
    exact h
  · intro la lo h
    unfold maskFrCell maskFrCellStage1
    split_ifs with h1 <;> simp_all

/-- Concrete instance of the C9 theorem: a point in the Monaco box. -/
theorem mask_french_territory_spec_witness :
    ((mask_french_territory [(43.73 : ℚ)] [(7.42 : ℚ)]).getD 0 []).getD
        0 false = maskFrCell (elt [(43.73 : ℚ)] 0) (elt [(7.42 : ℚ)] 0) :=
  (mask_french_territory_spec [(43.73 : ℚ)] [(7.42 : ℚ)] 0 0 (by decide)
    (by decide)).1

/-! ### C2 : the coverage map -/

/-- C2: `compute_coverage_map` returns a boolean matrix congruent to the
grid (N rows, each of M entries), whose `(i, j)` entry is exactly the LOS
result for the shared observer and the target `(lats[i], lons[j])` at
altitude `fl_to_m flight_level`. -/
theorem compute_coverage_map_spec :
    ∀ (radar_lat radar_lon radar_height_agl_m flight_level : ℚ)
      (lats lons : List ℚ) (Z : List (List ℚ))
      (n_samples : ℕ) (margin_m : ℚ),
      (compute_coverage_map radar_lat radar_lon radar_height_agl_m
          flight_level lats lons Z n_samples margin_m).length = lats.length
      ∧ (∀ row ∈ compute_coverage_map radar_lat radar_lon
            radar_height_agl_m flight_level lats lons Z n_samples margin_m,
          row.length = lons.length)
      ∧ ∀ i j : ℕ, i < lats.length → j < lons.length →
          ((compute_coverage_map radar_lat radar_lon radar_height_agl_m
              flight_level lats lons Z n_samples margin_m).getD i []).getD
              j false
            = los_visible radar_lat radar_lon radar_height_agl_m
                (elt lats i) (elt lons j) (fl_to_m flight_level)
                lats lons Z n_samples margin_m := by
  intro radar_lat radar_lon radar_height_agl_m flight_level lats lons Z
    n_samples margin_m
  refine ⟨by simp [compute_coverage_map], ?_, ?_⟩
  · intro row hrow
    simp only [compute_coverage_map, List.mem_map] at hrow
    obtain ⟨la, _, rfl⟩ := hrow
    simp
  · intro i j hi hj
    exact getD_getD_map_grid _ lats lons i j hi hj

/-- Concrete instance of the C2 theorem on a 2×2 grid. -/
theorem compute_coverage_map_spec_witness :
    ((compute_coverage_map 0 0 10 1 [(0 : ℚ), 1] [(0 : ℚ), 1]
        [[1, 1], [1, 1]] 2 0).getD 0 []).getD 1 false
      = los_visible 0 0 10 (elt [(0 : ℚ), 1] 0) (elt [(0 : ℚ), 1] 1)
          (fl_to_m 1) [(0 : ℚ), 1] [(0 : ℚ), 1] [[1, 1], [1, 1]] 2 0 :=
  (compute_coverage_map_spec 0 0 10 1 [(0 : ℚ), 1] [(0 : ℚ), 1]
      [[1, 1], [1, 1]] 2 0).2.2 0 1 (by decide) (by decide)

/-! ### C1 : the LOS algorithm -/

theorem losSample_eq_spec (radar_lat radar_lon z_radar target_lat target_lon
    target_alt_m_msl : ℚ) (lats lons : List ℚ) (Z : List (List ℚ))
    (n_samples : ℕ) (margin_m : ℚ) (k : ℕ) :
    losSample radar_lat radar_lon z_radar target_lat target_lon
        target_alt_m_msl lats lons Z n_samples margin_m k
      = losSampleSpec radar_lat radar_lon z_radar target_lat target_lon
        target_alt_m_msl lats lons Z n_samples margin_m k := by
  have hlat : radar_lat + (k : ℚ) / (n_samples : ℚ) *
      (target_lat - radar_lat)
      = (1 - (k : ℚ) / (n_samples : ℚ)) * radar_lat +
        (k : ℚ) / (n_samples : ℚ) * target_lat := by ring
  have hlon : radar_lon + (k : ℚ) / (n_samples : ℚ) *
      (target_lon - radar_lon)
      = (1 - (k : ℚ) / (n_samples : ℚ)) * radar_lon +
        (k : ℚ) / (n_samples : ℚ) * target_lon := by ring
  have hline : z_radar + (k : ℚ) / (n_samples : ℚ) *
      (target_alt_m_msl - z_radar)
      = (1 - (k : ℚ) / (n_samples : ℚ)) * z_radar +
        (k : ℚ) / (n_samples : ℚ) * target_alt_m_msl := by ring
  unfold losSample losSampleSpec z_ligne
  dsimp only
  rw [hlat, hlon, hline]

/-- C1: `los_visible` returns exactly the result of the algorithm the
specification describes: `false` on a failed observer lookup, otherwise
`true` iff every interior sample index `k` (`1 ≤ k ≤ n_samples - 1`,
endpoints excluded), at the linearly interpolated position and against the
linearly interpolated line altitude, has terrain data and does not satisfy
`ground + margin ≥ line`; a failing sample makes the result `false`. -/
theorem los_visible_spec :
    ∀ (radar_lat radar_lon radar_height_agl_m : ℚ)
      (target_lat target_lon target_alt_m_msl : ℚ)
      (lats lons : List ℚ) (Z : List (List ℚ))
      (n_samples : ℕ) (margin_m : ℚ),
      2 ≤ n_samples → 0 ≤ margin_m →
      los_visible radar_lat radar_lon radar_height_agl_m target_lat
          target_lon target_alt_m_msl lats lons Z n_samples margin_m
        = losVisibleSpec radar_lat radar_lon radar_height_agl_m target_lat
          target_lon target_alt_m_msl lats lons Z n_samples margin_m := by
  intro radar_lat radar_lon radar_height_agl_m target_lat target_lon
    target_alt_m_msl lats lons Z n_samples margin_m hn _hm
  unfold los_visible losVisibleSpec
  cases hz : z_terrain radar_lat radar_lon lats lons Z with
  | none => rfl
  | some z_ground_r =>
      rw [Bool.eq_iff_iff]
      simp only [List.all_eq_true, List.mem_range'_1, decide_eq_true_eq,
        losSample_eq_spec]
      constructor
      · intro h k hk hk1
        exact h k ⟨hk1, by omega⟩
      · intro h k hk
        exact h k (by omega) hk.1

/-- Concrete instance of the C1 theorem on a flat 2×2 grid. -/
theorem los_visible_spec_witness :
    los_visible 0 0 10 1 1 100 [(0 : ℚ), 1] [(0 : ℚ), 1] [[0, 0], [0, 0]]
        2 0
      = losVisibleSpec 0 0 10 1 1 100 [(0 : ℚ), 1] [(0 : ℚ), 1]
        [[0, 0], [0, 0]] 2 0 :=
  los_visible_spec 0 0 10 1 1 100 [(0 : ℚ), 1] [(0 : ℚ), 1]
    [[0, 0], [0, 0]] 2 0 (by decide) (by decide)

/-! ### Mask algebra lemmas (shared by the `combine_masks` claims) -/

theorem maskShapeEq_iff (a b : List (List Bool)) :
    maskShapeEq a b = true ↔ a.map List.length = b.map List.length := by
  induction a generalizing b with
  | nil => cases b <;> simp [maskShapeEq]
  | cons ra a ih =>
      cases b with
      | nil => simp [maskShapeEq]
      | cons rb b =>
          simp only [maskShapeEq, List.zip_cons_cons, List.all_cons,
            List.length_cons, List.map_cons, List.cons.injEq,
            Bool.and_eq_true, beq_iff_eq] at *
          constructor
          · rintro ⟨h1, h2, h3⟩
            exact ⟨h2, (ih b).mp ⟨by omega, h3⟩⟩
          · rintro ⟨h1, h2⟩
            have := (ih b).mpr h2
            simp only [Bool.and_eq_true, beq_iff_eq] at this
            exact ⟨by omega, h1, this.2⟩

theorem maskShapeEq_refl (a : List (List Bool)) : maskShapeEq a a = true :=
  (maskShapeEq_iff a a).mpr rfl

theorem rowAnd_comm (ra rb : List Bool) :
    List.zipWith (fun x y => x && y) ra rb
      = List.zipWith (fun x y => x && y) rb ra :=
  List.zipWith_comm_of_comm _ Bool.and_comm ra rb

theorem maskAnd_comm (a b : List (List Bool)) : maskAnd a b = maskAnd b a := by
  unfold maskAnd
  exact List.zipWith_comm_of_comm _ (fun x y => rowAnd_comm x y) a b

theorem rowAnd_assoc (ra rb rc : List Bool) :
    List.zipWith (fun x y => x && y)
        (List.zipWith (fun x y => x && y) ra rb) rc
      = List.zipWith (fun x y => x && y) ra
        (List.zipWith (fun x y => x && y) rb rc) := by
  induction ra generalizing rb rc with
  | nil => simp
  | cons x ra ih =>
      cases rb with
      | nil => simp
      | cons y rb =>
          cases rc with
          | nil => simp
          | cons z rc => simp [ih, Bool.and_assoc]

theorem maskAnd_assoc (a b c : List (List Bool)) :
    maskAnd (maskAnd a b) c = maskAnd a (maskAnd b c) := by
  unfold maskAnd
  induction a generalizing b c with
  | nil => simp
  | cons ra a ih =>
      cases b with
      | nil => simp
      | cons rb b =>
          cases c with
          | nil => simp
          | cons rc c => simp [ih, rowAnd_assoc]

theorem rowAnd_self (ra : List Bool) :
    List.zipWith (fun x y => x && y) ra ra = ra := by
  induction ra with
  | nil => rfl
  | cons x ra ih => simp [ih]

theorem maskAnd_self (a : List (List Bool)) : maskAnd a a = a := by
  unfold maskAnd
  induction a with
  | nil => rfl
  | cons ra a ih => simp [rowAnd_self, ih]

theorem getD_rowAnd (ra rb : List Bool) (j : ℕ) :
    (List.zipWith (fun x y => x && y) ra rb).getD j false
      = (ra.getD j false && rb.getD j false) := by
  induction ra generalizing rb j with
  | nil => simp
  | cons x ra ih =>
      cases rb with
      | nil => simp
      | cons y rb =>
          cases j with
          | zero => simp
          | succ j => simpa using ih rb j

theorem getD_maskAnd (a b : List (List Bool)) (i j : ℕ) :
    ((maskAnd a b).getD i []).getD j false
      = ((a.getD i []).getD j false && (b.getD i []).getD j false) := by
  unfold maskAnd
  induction a generalizing b i with
  | nil => simp
  | cons ra a ih =>
      cases b with
      | nil => simp
      | cons rb b =>
          cases i with
          | zero => simpa using getD_rowAnd ra rb j
          | succ i => simpa using ih b i

theorem countP_rowAnd_le_left (ra rb : List Bool) :
    (List.zipWith (fun x y => x && y) ra rb).countP id ≤ ra.countP id := by
  induction ra generalizing rb with
  | nil => simp
  | cons x ra ih =>
      cases rb with
      | nil => simp
      | cons y rb =>
          simp only [List.zipWith_cons_cons, List.countP_cons]
          have h1 : (if id (x && y) = true then 1 else 0)
              ≤ (if id x = true then 1 else 0) := by
            cases x <;> cases y <;> simp
          have := ih rb
          omega

theorem countP_rowAnd_le_right (ra rb : List Bool) :
    (List.zipWith (fun x y => x && y) ra rb).countP id ≤ rb.countP id := by
  rw [rowAnd_comm]
  exact countP_rowAnd_le_left rb ra

theorem countTrue_maskAnd_le_left (a b : List (List Bool)) :
    countTrue (maskAnd a b) ≤ countTrue a := by
  unfold countTrue maskAnd
  induction a generalizing b with
  | nil => simp
  | cons ra a ih =>
      cases b with
      | nil => simp
      | cons rb b =>
          simp only [List.zipWith_cons_cons, List.map_cons, List.sum_cons]
          have h1 := countP_rowAnd_le_left ra rb
          have h2 := ih b
          omega

theorem countTrue_maskAnd_le_right (a b : List (List Bool)) :
    countTrue (maskAnd a b) ≤ countTrue b := by
  rw [maskAnd_comm]
  exact countTrue_maskAnd_le_left b a

theorem maskAnd_map_length (a b : List (List Bool))
    (h : a.map List.length = b.map List.length) :
    (maskAnd a b).map List.length = a.map List.length := by
  unfold maskAnd
  induction a generalizing b with
  | nil => simp
  | cons ra a ih =>
      cases b with
      | nil => simp at h
      | cons rb b =>
          simp only [List.map_cons, List.cons.injEq] at h
          simp only [List.zipWith_cons_cons, List.map_cons,
            List.cons.injEq]
          exact ⟨by simp [h.1], ih b h.2⟩

theorem foldl_maskAnd_shape (t : List (List (List Bool))) :
    ∀ (h acc : List (List Bool)), (∀ m ∈ t, maskShapeEq h m = true) →
      maskShapeEq h acc = true →
      maskShapeEq h (t.foldl maskAnd acc) = true := by
  induction t with
  | nil => intro h acc _ hacc; simpa using hacc
  | cons m t ih =>
      intro h acc hall hacc
      simp only [List.foldl_cons]
      apply ih h (maskAnd acc m)
        (fun x hx => hall x (List.mem_cons_of_mem _ hx))
      have hm := hall m (List.mem_cons_self m t)
      rw [maskShapeEq_iff] at hacc hm ⊢
      rw [maskAnd_map_length acc m (by rw [← hacc]; exact hm)]
      exact hacc

/-! ### C8 : error behaviour of `combine_masks` -/

/-- C8: `combine_masks` fails (returns no mask, modelling the raised
`ValueError`) exactly when it receives zero masks or some input's shape
differs from the first input's shape; when it succeeds, the produced mask
has exactly the first input's shape (no broadcasting or truncation). -/
theorem combine_masks_error_spec :
    ∀ masks : List (List (List Bool)),
      (combine_masks masks = none ↔
        masks = [] ∨ ∃ m ∈ masks, maskShapeEq masks.headI m = false)
      ∧ ∀ r, combine_masks masks = some r →
          maskShapeEq masks.headI r = true := by
  intro masks
  cases masks with
  | nil =>
      refine ⟨by simp [combine_masks], ?_⟩
      intro r hr
      simp [combine_masks] at hr
  | cons h t =>
      by_cases hall : t.all (fun x => maskShapeEq h x) = true
      · constructor
        · simp only [combine_masks, hall, if_true]
          constructor
          · intro habs; exact absurd habs (by simp)
          · rintro (habs | ⟨m, hm, hfalse⟩)
            · exact absurd habs (by simp)
            · rcases List.mem_cons.mp hm with rfl | hmt
              · rw [List.headI_cons, maskShapeEq_refl] at hfalse
                exact absurd hfalse (by simp)
              · rw [List.all_eq_true] at hall
                rw [List.headI_cons] at hfalse
                have := hall m hmt
                rw [hfalse] at this
                exact absurd this (by simp)
        · intro r hr
          simp only [combine_masks, hall, if_true, Option.some.injEq] at hr
          subst hr
          rw [List.headI_cons]
          apply foldl_maskAnd_shape t h h
          · intro m hm
            exact (List.all_eq_true.mp hall) m hm
          · exact maskShapeEq_refl h
      · constructor
        · simp only [combine_masks, hall, if_false]
          constructor
          · intro _
            right
            rw [List.all_eq_true] at hall
            push_neg at hall
            obtain ⟨m, hm, hfalse⟩ := hall
            exact ⟨m, List.mem_cons_of_mem _ hm,
              by rw [List.headI_cons]; exact Bool.not_eq_true _ ▸
                (Bool.eq_false_iff.mpr hfalse)⟩
          · intro _; rfl
        · intro r hr
          simp only [combine_masks, hall, if_false] at hr
          exact absurd hr (by simp)

/-- Concrete instance of the C8 theorem: two masks of different shapes make
`combine_masks` fail. -/
theorem combine_masks_error_spec_witness :
    combine_masks [[[true]], [[true, false]]] = none :=
  (combine_masks_error_spec [[[true]], [[true, false]]]).1.mpr (by decide)

/-! ### C6 : algebraic laws of `combine_masks` -/

/-- C6: on same-shaped masks `combine_masks` computes the pointwise logical
AND and satisfies commutativity, associativity (through the optional
result), idempotence, and the true-count bound. -/
theorem combine_masks_laws :
    ∀ A B C : List (List Bool),
      maskShapeEq A B = true → maskShapeEq A C = true →
      combine_masks [A, B] = some (maskAnd A B)
      ∧ (∀ i j : ℕ, ((maskAnd A B).getD i []).getD j false
          = (((A.getD i []).getD j false) && ((B.getD i []).getD j false)))
      ∧ combine_masks [A, B] = combine_masks [B, A]
      ∧ (combine_masks [A, B]).bind (fun D => combine_masks [D, C])
          = (combine_masks [B, C]).bind (fun D => combine_masks [A, D])
      ∧ combine_masks [A, A] = some A
      ∧ countTrue (maskAnd A B) ≤ min (countTrue A) (countTrue B) := by
  intro A B C hAB hAC
  have hBA : maskShapeEq B A = true :=
    (maskShapeEq_iff B A).mpr ((maskShapeEq_iff A B).mp hAB).symm
  have hBC : maskShapeEq B C = true :=
    (maskShapeEq_iff B C).mpr
      (((maskShapeEq_iff A B).mp hAB).symm.trans
        ((maskShapeEq_iff A C).mp hAC))
  have hcomb : ∀ X Y : List (List Bool), maskShapeEq X Y = true →
      combine_masks [X, Y] = some (maskAnd X Y) := by
    intro X Y h
    simp [combine_masks, h]
  refine ⟨hcomb A B hAB, getD_maskAnd A B, ?_, ?_, ?_,
    le_min (countTrue_maskAnd_le_left A B) (countTrue_maskAnd_le_right A B)⟩
  · rw [hcomb A B hAB, hcomb B A hBA, maskAnd_comm]
  · have hABC : maskShapeEq (maskAnd A B) C = true := by
      rw [maskShapeEq_iff,
        maskAnd_map_length A B ((maskShapeEq_iff A B).mp hAB)]
      exact (maskShapeEq_iff A C).mp hAC
    have hA_BC : maskShapeEq A (maskAnd B C) = true := by
      rw [maskShapeEq_iff,
        maskAnd_map_length B C ((maskShapeEq_iff B C).mp hBC)]
      exact (maskShapeEq_iff A B).mp hAB
    rw [hcomb A B hAB, hcomb B C hBC, Option.some_bind, Option.some_bind,
      hcomb (maskAnd A B) C hABC, hcomb A (maskAnd B C) hA_BC,
      maskAnd_assoc]
  · rw [hcomb A A (maskShapeEq_refl A), maskAnd_self]

/-- Concrete instance of the C6 theorem on 1×2 masks. -/
theorem combine_masks_laws_witness :
    combine_masks [[[true, false]], [[true, true]]]
      = some (maskAnd [[true, false]] [[true, true]]) :=
  (combine_masks_laws [[true, false]] [[true, true]] [[false, true]]
    (by decide) (by decide)).1

/-! ### Terrain-grid lemmas -/

theorem axisMin_eq (xs : List ℚ) : axisMin xs = min (firstD xs) (lastD xs) := by
  unfold axisMin incOrder
  by_cases h : firstD xs < lastD xs
  · rw [if_pos (by simpa using h), min_eq_left h.le]
  · rw [if_neg (by simpa using h), min_eq_right (le_of_not_lt h)]

theorem axisMax_eq (xs : List ℚ) : axisMax xs = max (firstD xs) (lastD xs) := by
  unfold axisMax incOrder
  by_cases h : firstD xs < lastD xs
  · rw [if_pos (by simpa using h), max_eq_right h.le]
  · rw [if_neg (by simpa using h), max_eq_left (le_of_not_lt h)]

theorem inBBox_iff (lat lon : ℚ) (lats lons : List ℚ) :
    inBBox lat lon lats lons = true ↔
      (min (firstD lats) (lastD lats) ≤ lat ∧
        lat ≤ max (firstD lats) (lastD lats) ∧
        min (firstD lons) (lastD lons) ≤ lon ∧
        lon ≤ max (firstD lons) (lastD lons)) := by
  unfold inBBox
  rw [axisMin_eq, axisMax_eq, axisMin_eq, axisMax_eq]
  simp [Bool.and_eq_true, decide_eq_true_eq, and_assoc]

/-! ### C3 : absence conditions of the elevation query -/

/-- C3: on a monotonic grid, `z_terrain` returns no value exactly when the
query point falls outside the closed bounding rectangle spanned by the
extreme axis values (boundary queries are in-bounds), or some corner of the
located enclosing cell is strictly negative (the no-data sentinel); in
every other case it returns a value. -/
theorem z_terrain_none_iff :
    ∀ (lat lon : ℚ) (lats lons : List ℚ) (Z : List (List ℚ)),
      (lats.Pairwise (· < ·) ∨ lats.Pairwise (· > ·)) →
      (lons.Pairwise (· < ·) ∨ lons.Pairwise (· > ·)) →
      (z_terrain lat lon lats lons Z = none ↔
        (¬ (min (firstD lats) (lastD lats) ≤ lat ∧
            lat ≤ max (firstD lats) (lastD lats) ∧
            min (firstD lons) (lastD lons) ≤ lon ∧
            lon ≤ max (firstD lons) (lastD lons))
         ∨ (locateCell lat lon lats lons Z).z00 < 0
         ∨ (locateCell lat lon lats lons Z).z01 < 0
         ∨ (locateCell lat lon lats lons Z).z10 < 0
         ∨ (locateCell lat lon lats lons Z).z11 < 0)) := by
  intro lat lon lats lons Z _ _
  unfold z_terrain
  dsimp only
  split_ifs with hb hm
  · rw [inBBox_iff] at hb
    constructor
    · intro _
      right
      rcases min_lt_iff.mp hm with h | h <;> rcases min_lt_iff.mp h with h' | h'
      · exact Or.inl h'
      · exact Or.inr (Or.inl h')
      · exact Or.inr (Or.inr (Or.inl h'))
      · exact Or.inr (Or.inr (Or.inr h'))
    · intro _; rfl
  · rw [inBBox_iff] at hb
    have hge := not_lt.mp hm
    have h0 := le_min_iff.mp hge
    have h00 := (le_min_iff.mp h0.1).1
    have h01 := (le_min_iff.mp h0.1).2
    have h10 := (le_min_iff.mp h0.2).1
    have h11 := (le_min_iff.mp h0.2).2
    constructor
    · intro h; exact absurd h (by simp)
    · rintro (h | h | h | h | h)
      · exact absurd hb h
      · exact absurd h (not_lt.mpr h00)
      · exact absurd h (not_lt.mpr h01)
      · exact absurd h (not_lt.mpr h10)
      · exact absurd h (not_lt.mpr h11)
  · constructor
    · intro _
      left
      intro hc
      exact hb ((inBBox_iff lat lon lats lons).mpr hc)
    · intro _; rfl

/-- Concrete instance of the C3 theorem: an out-of-bounds query yields no
value. -/
theorem z_terrain_none_iff_witness :
    z_terrain 3 0 [(0 : ℚ), 1] [(0 : ℚ), 1] [[1, 1], [1, 1]] = none :=
  (z_terrain_none_iff 3 0 [(0 : ℚ), 1] [(0 : ℚ), 1] [[1, 1], [1, 1]]
    (Or.inl (by decide)) (Or.inl (by decide))).mpr (by decide)

theorem elt_reverse (xs : List ℚ) (i : ℕ) (h : i < xs.length) :
    elt xs.reverse i = elt xs (xs.length - 1 - i) := by
  unfold elt
  rw [List.getD_eq_getElem?_getD, List.getD_eq_getElem?_getD,
    List.getElem?_reverse h]

theorem firstD_reverse (xs : List ℚ) : firstD xs.reverse = lastD xs := by
  by_cases h : xs = []
  · subst h; rfl
  · have h0 : 0 < xs.length := List.length_pos.mpr h
    unfold firstD lastD
    simpa using elt_reverse xs 0 h0

theorem lastD_reverse (xs : List ℚ) : lastD xs.reverse = firstD xs := by
  by_cases h : xs = []
  · subst h; rfl
  · have h0 : 0 < xs.length := List.length_pos.mpr h
    have hl : xs.length - 1 < xs.length := by omega
    unfold firstD lastD
    rw [List.length_reverse, elt_reverse xs (xs.length - 1) hl,
      Nat.sub_self]

theorem incOrder_reverse (xs : List ℚ) (h : firstD xs ≠ lastD xs) :
    incOrder xs.reverse = !incOrder xs := by
  unfold incOrder
  rw [firstD_reverse, lastD_reverse]
  rcases h.lt_or_lt with hlt | hlt
  · have h1 : ¬ lastD xs < firstD xs := not_lt.mpr hlt.le
    simp [hlt, h1]
  · have h1 : ¬ firstD xs < lastD xs := not_lt.mpr hlt.le
    simp [hlt, h1]

theorem sortedAxis_reverse (xs : List ℚ) (h : firstD xs ≠ lastD xs) :
    sortedAxis xs.reverse = sortedAxis xs := by
  unfold sortedAxis
  rw [incOrder_reverse xs h]
  cases hio : incOrder xs <;> simp [List.reverse_reverse]

theorem axisMin_reverse (xs : List ℚ) : axisMin xs.reverse = axisMin xs := by
  rw [axisMin_eq, axisMin_eq, firstD_reverse, lastD_reverse, min_comm]

theorem axisMax_reverse (xs : List ℚ) : axisMax xs.reverse = axisMax xs := by
  rw [axisMax_eq, axisMax_eq, firstD_reverse, lastD_reverse, max_comm]

theorem orientZ_flip_lat (lats lons : List ℚ) (Z : List (List ℚ))
    (h : firstD lats ≠ lastD lats) :
    orientZ lats.reverse lons Z.reverse = orientZ lats lons Z := by
  unfold orientZ
  rw [incOrder_reverse lats h]
  cases hio : incOrder lats <;> simp

theorem orientZ_flip_lon (lats lons : List ℚ) (Z : List (List ℚ))
    (h : firstD lons ≠ lastD lons) :
    orientZ lats lons.reverse (Z.map List.reverse) = orientZ lats lons Z := by
  unfold orientZ
  rw [incOrder_reverse lons h]
  cases hlo : incOrder lons <;> cases hla : incOrder lats <;>
    simp [List.map_map, Function.comp]

theorem z_terrain_flip_lat (lat lon : ℚ) (lats lons : List ℚ)
    (Z : List (List ℚ)) (h : firstD lats ≠ lastD lats) :
    z_terrain lat lon lats.reverse lons Z.reverse
      = z_terrain lat lon lats lons Z := by
  unfold z_terrain inBBox locateCell
  rw [axisMin_reverse, axisMax_reverse, sortedAxis_reverse lats h,
    orientZ_flip_lat lats lons Z h]

theorem z_terrain_flip_lon (lat lon : ℚ) (lats lons : List ℚ)
    (Z : List (List ℚ)) (h : firstD lons ≠ lastD lons) :
    z_terrain lat lon lats lons.reverse (Z.map List.reverse)
      = z_terrain lat lon lats lons Z := by
  unfold z_terrain inBBox locateCell
  rw [axisMin_reverse, axisMax_reverse, sortedAxis_reverse lons h,
    orientZ_flip_lon lats lons Z h]

theorem ne_first_last (xs : List ℚ)
    (h : xs.Pairwise (· < ·) ∨ xs.Pairwise (· > ·)) (h2 : 2 ≤ xs.length) :
    firstD xs ≠ lastD xs := by
  have h0 : 0 < xs.length := by omega
  have hl : xs.length - 1 < xs.length := by omega
  have h01 : 0 < xs.length - 1 := by omega
  unfold firstD lastD
  rw [elt_eq_getElem xs 0 h0, elt_eq_getElem xs (xs.length - 1) hl]
  rcases h with h | h
  · exact ne_of_lt (List.pairwise_iff_getElem.mp h 0 (xs.length - 1)
      h0 hl h01)
  · exact ne_of_gt (List.pairwise_iff_getElem.mp h 0 (xs.length - 1)
      h0 hl h01)

/-! ### C4 : double-reversal invariance of the elevation query -/

/-- C4: on a monotonic grid, reversing both coordinate axes and flipping
the elevation matrix along both axes leaves every `z_terrain` result (value
or absence) unchanged. -/
theorem z_terrain_reverse_invariant :
    ∀ (lat lon : ℚ) (lats lons : List ℚ) (Z : List (List ℚ)),
      (lats.Pairwise (· < ·) ∨ lats.Pairwise (· > ·)) →
      (lons.Pairwise (· < ·) ∨ lons.Pairwise (· > ·)) →
      2 ≤ lats.length → 2 ≤ lons.length →
      z_terrain lat lon lats.reverse lons.reverse
          (Z.reverse.map List.reverse)
        = z_terrain lat lon lats lons Z := by
  intro lat lon lats lons Z hlat hlon hN hM
  have h1 : firstD lats ≠ lastD lats := ne_first_last lats hlat hN
  have h2 : firstD lons ≠ lastD lons := ne_first_last lons hlon hM
  calc z_terrain lat lon lats.reverse lons.reverse
        (Z.reverse.map List.reverse)
      = z_terrain lat lon lats.reverse lons Z.reverse :=
        z_terrain_flip_lon lat lon lats.reverse lons Z.reverse h2
    _ = z_terrain lat lon lats lons Z :=
        z_terrain_flip_lat lat lon lats lons Z h1

/-- Concrete instance of the C4 theorem on a 2×2 ascending grid. -/
theorem z_terrain_reverse_invariant_witness :
    z_terrain (1 / 2) (1 / 2) ([(0 : ℚ), 1].reverse) ([(0 : ℚ), 1].reverse)
        (([[(1 : ℚ), 2], [3, 4]] : List (List ℚ)).reverse.map List.reverse)
      = z_terrain (1 / 2) (1 / 2) [(0 : ℚ), 1] [(0 : ℚ), 1]
          [[(1 : ℚ), 2], [3, 4]] :=
  z_terrain_reverse_invariant (1 / 2) (1 / 2) [(0 : ℚ), 1] [(0 : ℚ), 1]
    [[(1 : ℚ), 2], [3, 4]] (Or.inl (by decide)) (Or.inl (by decide))
    (by decide) (by decide)

theorem elt_strict_mono (xs : List ℚ) (hs : xs.Pairwise (· < ·))
    (i j : ℕ) (hij : i < j) (hj : j < xs.length) : elt xs i < elt xs j := by
  rw [elt_eq_getElem _ _ (lt_trans hij hj), elt_eq_getElem _ _ hj]
  exact List.pairwise_iff_getElem.mp hs i j (lt_trans hij hj) hj hij

theorem elt_lt_iff (x : ℚ) :
    ∀ xs : List ℚ, xs.Pairwise (· < ·) → ∀ i, i < xs.length →
      (elt xs i < x ↔ i < searchsorted xs x) := by
  intro xs
  induction xs with
  | nil => intro _ i hi; simp at hi
  | cons a tl ih =>
      intro hs i hi
      have htl : tl.Pairwise (· < ·) := (List.pairwise_cons.mp hs).2
      have hall : ∀ y ∈ tl, a < y := (List.pairwise_cons.mp hs).1
      unfold searchsorted
      rw [List.countP_cons]
      cases i with
      | zero =>
          show a < x ↔ 0 < _
          by_cases ha : a < x
          · simp [ha]
          · have hc : tl.countP (fun y => decide (y < x)) = 0 := by
              rw [List.countP_eq_zero]
              intro y hy
              simp only [decide_eq_true_eq]
              exact not_lt.mpr ((le_of_not_lt ha).trans (hall y hy).le)
            simp [ha, hc]
      | succ i =>
          have hi' : i < tl.length := by simpa using hi
          show elt tl i < x ↔ i + 1 < _
          by_cases ha : a < x
          · have := ih htl i hi'
            unfold searchsorted at this
            simp only [ha, decide_True, if_true]
            rw [this]
            omega
          · have hc : tl.countP (fun y => decide (y < x)) = 0 := by
              rw [List.countP_eq_zero]
              intro y hy
              simp only [decide_eq_true_eq]
              exact not_lt.mpr ((le_of_not_lt ha).trans (hall y hy).le)
            have hlt : ¬ elt tl i < x := by
              rw [elt_eq_getElem _ _ hi']
              exact not_lt.mpr ((le_of_not_lt ha).trans
                (hall _ (List.getElem_mem hi')).le)
            simp [ha, hc, hlt]

theorem searchsorted_elt (xs : List ℚ) (hs : xs.Pairwise (· < ·))
    (i : ℕ) (hi : i < xs.length) : searchsorted xs (elt xs i) = i := by
  have key := elt_lt_iff (elt xs i) xs hs
  have h1 : ¬ i < searchsorted xs (elt xs i) := fun hc =>
    lt_irrefl _ ((key i hi).mpr hc)
  rcases Nat.eq_zero_or_pos i with rfl | hpos
  · omega
  · have h2 : i - 1 < searchsorted xs (elt xs i) := by
      apply (key (i - 1) (by omega)).mp
      exact elt_strict_mono xs hs (i - 1) i (by omega) hi
    omega

theorem cellIdx_bracket (xs : List ℚ) (hs : xs.Pairwise (· < ·))
    (hn : 2 ≤ xs.length) (x : ℚ) (hlo : elt xs 0 ≤ x)
    (hhi : x ≤ elt xs (xs.length - 1)) :
    1 ≤ cellIdx xs x ∧ cellIdx xs x ≤ xs.length - 1 ∧
    elt xs (cellIdx xs x - 1) ≤ x ∧ x ≤ elt xs (cellIdx xs x) ∧
    elt xs (cellIdx xs x - 1) < elt xs (cellIdx xs x) := by
  have key := elt_lt_iff x xs hs
  have hcle : searchsorted xs x ≤ xs.length := List.countP_le_length _
  have hcne : searchsorted xs x ≤ xs.length - 1 := by
    by_contra hgt
    push_neg at hgt
    have := (key (xs.length - 1) (by omega)).mpr (by omega)
    exact absurd hhi (not_le.mpr this)
  unfold cellIdx clipIdx
  rcases Nat.eq_zero_or_pos (searchsorted xs x) with hc0 | hcpos
  · have hi1 : min (max (searchsorted xs x) 1) (xs.length - 1) = 1 := by
      omega
    rw [hi1]
    have hxle0 : x ≤ elt xs 0 := le_of_not_lt (fun hlt => by
      have := (key 0 (by omega)).mp hlt
      omega)
    have h01 : elt xs 0 < elt xs 1 :=
      elt_strict_mono xs hs 0 1 (by omega) (by omega)
    exact ⟨le_refl 1, by omega, by simpa using hlo,
      hxle0.trans h01.le, by simpa using h01⟩
  · have hi1 : min (max (searchsorted xs x) 1) (xs.length - 1)
        = searchsorted xs x := by omega
    rw [hi1]
    have hlow : elt xs (searchsorted xs x - 1) < x :=
      (key (searchsorted xs x - 1) (by omega)).mpr (by omega)
    have hup : x ≤ elt xs (searchsorted xs x) :=
      le_of_not_lt (fun hlt => by
        have := (key (searchsorted xs x) (by omega)).mp hlt
        omega)
    exact ⟨hcpos, hcne, hlow.le, hup,
      elt_strict_mono xs hs _ _ (by omega) (by omega)⟩

theorem sortedAxis_spec (xs : List ℚ)
    (h : xs.Pairwise (· < ·) ∨ xs.Pairwise (· > ·)) (h2 : 2 ≤ xs.length) :
    (sortedAxis xs).Pairwise (· < ·) ∧
    (sortedAxis xs).length = xs.length ∧
    axisMin xs = elt (sortedAxis xs) 0 ∧
    axisMax xs = elt (sortedAxis xs) (xs.length - 1) := by
  rcases h with hinc | hdec
  · have hio : incOrder xs = true := by
      unfold incOrder firstD lastD
      simp only [decide_eq_true_eq]
      exact elt_strict_mono xs hinc 0 (xs.length - 1) (by omega) (by omega)
    unfold sortedAxis axisMin axisMax
    rw [hio]
    exact ⟨hinc, rfl, rfl, rfl⟩
  · have hfl : lastD xs < firstD xs := by
      unfold firstD lastD
      rw [elt_eq_getElem _ _ (by omega : 0 < xs.length),
        elt_eq_getElem _ _ (by omega : xs.length - 1 < xs.length)]
      exact List.pairwise_iff_getElem.mp hdec 0 (xs.length - 1)
        (by omega) (by omega) (by omega)
    have hio : incOrder xs = false := by
      unfold incOrder
      simp only [decide_eq_false_iff_not, not_lt]
      exact hfl.le
    unfold sortedAxis axisMin axisMax
    rw [hio]
    refine ⟨List.pairwise_reverse.mpr hdec, by simp, ?_, ?_⟩
    · show lastD xs = elt xs.reverse 0
      rw [show elt xs.reverse 0 = firstD xs.reverse from rfl,
        firstD_reverse]
    · show firstD xs = elt xs.reverse (xs.length - 1)
      have : elt xs.reverse (xs.length - 1)
          = elt xs.reverse (xs.reverse.length - 1) := by simp
      rw [this, show elt xs.reverse (xs.reverse.length - 1)
          = lastD xs.reverse from rfl, lastD_reverse]

theorem bilinear_nonneg (c : Cell) (lat lon : ℚ)
    (h00 : 0 ≤ c.z00) (h01 : 0 ≤ c.z01) (h10 : 0 ≤ c.z10) (h11 : 0 ≤ c.z11)
    (hlat0 : c.lat0 ≤ lat) (hlat1 : lat ≤ c.lat1)
    (hlon0 : c.lon0 ≤ lon) (hlon1 : lon ≤ c.lon1) :
    0 ≤ bilinear c lat lon := by
  unfold bilinear epsGuard
  dsimp only
  have heps : (0 : ℚ) < 1 / 10 ^ 12 := by norm_num
  have hdent : 0 < c.lat1 - c.lat0 + 1 / 10 ^ 12 := by linarith
  have hdenu : 0 < c.lon1 - c.lon0 + 1 / 10 ^ 12 := by linarith
  have ht0 : 0 ≤ (lat - c.lat0) / (c.lat1 - c.lat0 + 1 / 10 ^ 12) :=
    div_nonneg (by linarith) hdent.le
  have ht1 : (lat - c.lat0) / (c.lat1 - c.lat0 + 1 / 10 ^ 12) ≤ 1 :=
    (div_le_one hdent).mpr (by linarith)
  have hu0 : 0 ≤ (lon - c.lon0) / (c.lon1 - c.lon0 + 1 / 10 ^ 12) :=
    div_nonneg (by linarith) hdenu.le
  have hu1 : (lon - c.lon0) / (c.lon1 - c.lon0 + 1 / 10 ^ 12) ≤ 1 :=
    (div_le_one hdenu).mpr (by linarith)
  apply add_nonneg
  · exact mul_nonneg (by linarith)
      (add_nonneg (mul_nonneg (by linarith) h00) (mul_nonneg hu0 h01))
  · exact mul_nonneg ht0
      (add_nonneg (mul_nonneg (by linarith) h10) (mul_nonneg hu0 h11))

/-! ### C10 : returned elevations are never in the no-data range -/

/-- C10: on a monotonic grid, whenever `z_terrain` returns a value, that
value is non-negative: the four corners of the enclosing cell must be
non-negative for a value to be produced, and the bilinear weights all lie in
`[0, 1]` for an in-bounds query, so the negative no-data range can never
leak into a returned elevation. -/
theorem z_terrain_nonneg :
    ∀ (lat lon : ℚ) (lats lons : List ℚ) (Z : List (List ℚ)) (v : ℚ),
      (lats.Pairwise (· < ·) ∨ lats.Pairwise (· > ·)) →
      (lons.Pairwise (· < ·) ∨ lons.Pairwise (· > ·)) →
      2 ≤ lats.length → 2 ≤ lons.length →
      z_terrain lat lon lats lons Z = some v → 0 ≤ v := by
  intro lat lon lats lons Z v hlat hlon hN hM hz
  unfold z_terrain at hz
  dsimp only at hz
  by_cases hb : inBBox lat lon lats lons
  swap
  · rw [if_neg hb] at hz
    exact absurd hz (by simp)
  rw [if_pos hb] at hz
  by_cases hm : min (min (locateCell lat lon lats lons Z).z00
      (locateCell lat lon lats lons Z).z01)
      (min (locateCell lat lon lats lons Z).z10
        (locateCell lat lon lats lons Z).z11) < 0
  · rw [if_pos hm] at hz
    exact absurd hz (by simp)
  rw [if_neg hm] at hz
  have hv : v = bilinear (locateCell lat lon lats lons Z) lat lon :=
    (Option.some.inj hz).symm
  have h0 := le_min_iff.mp (not_lt.mp hm)
  have h00 := (le_min_iff.mp h0.1).1
  have h01 := (le_min_iff.mp h0.1).2
  have h10 := (le_min_iff.mp h0.2).1
  have h11 := (le_min_iff.mp h0.2).2
  obtain ⟨hsla, hlenla, hminla, hmaxla⟩ := sortedAxis_spec lats hlat hN
  obtain ⟨hslo, hlenlo, hminlo, hmaxlo⟩ := sortedAxis_spec lons hlon hM
  simp only [inBBox, Bool.and_eq_true, decide_eq_true_eq] at hb
  obtain ⟨⟨⟨hb1, hb2⟩, hb3⟩, hb4⟩ := hb
  rw [hminla] at hb1
  rw [hmaxla] at hb2
  rw [hminlo] at hb3
  rw [hmaxlo] at hb4
  obtain ⟨_, _, hla0, hla1, _⟩ := cellIdx_bracket (sortedAxis lats) hsla
    (by omega) lat hb1 (by rw [hlenla]; exact hb2)
  obtain ⟨_, _, hlo0, hlo1, _⟩ := cellIdx_bracket (sortedAxis lons) hslo
    (by omega) lon hb3 (by rw [hlenlo]; exact hb4)
  have hc : locateCell lat lon lats lons Z =
      { lat0 := elt (sortedAxis lats) (cellIdx (sortedAxis lats) lat - 1)
        lat1 := elt (sortedAxis lats) (cellIdx (sortedAxis lats) lat)
        lon0 := elt (sortedAxis lons) (cellIdx (sortedAxis lons) lon - 1)
        lon1 := elt (sortedAxis lons) (cellIdx (sortedAxis lons) lon)
        z00 := zAt (orientZ lats lons Z)
          (cellIdx (sortedAxis lats) lat - 1)
          (cellIdx (sortedAxis lons) lon - 1)
        z01 := zAt (orientZ lats lons Z)
          (cellIdx (sortedAxis lats) lat - 1) (cellIdx (sortedAxis lons) lon)
        z10 := zAt (orientZ lats lons Z) (cellIdx (sortedAxis lats) lat)
          (cellIdx (sortedAxis lons) lon - 1)
        z11 := zAt (orientZ lats lons Z) (cellIdx (sortedAxis lats) lat)
          (cellIdx (sortedAxis lons) lon) } := rfl
  rw [hv]
  apply bilinear_nonneg _ lat lon h00 h01 h10 h11 <;> rw [hc]
  · exact hla0
  · exact hla1
  · exact hlo0
  · exact hlo1

/-- Concrete instance of the C10 theorem. -/
theorem z_terrain_nonneg_witness :
    (0 : ℚ) ≤ bilinear
      (locateCell 0 0 [(0 : ℚ), 1] [(0 : ℚ), 1] [[(1 : ℚ), 2], [3, 4]]) 0 0 :=
  z_terrain_nonneg 0 0 [(0 : ℚ), 1] [(0 : ℚ), 1] [[(1 : ℚ), 2], [3, 4]] _
    (Or.inl (by decide)) (Or.inl (by decide)) (by decide) (by decide)
    (by unfold z_terrain
        rw [if_pos (by decide)]
        dsimp only
        rw [if_neg (by decide)])

theorem incOrder_asc (xs : List ℚ) (h : xs.Pairwise (· < ·))
    (h2 : 2 ≤ xs.length) : incOrder xs = true := by
  unfold incOrder firstD lastD
  simp only [decide_eq_true_eq]
  exact elt_strict_mono xs h 0 (xs.length - 1) (by omega) (by omega)

theorem sortedAxis_asc (xs : List ℚ) (h : xs.Pairwise (· < ·))
    (h2 : 2 ≤ xs.length) : sortedAxis xs = xs := by
  unfold sortedAxis
  rw [incOrder_asc xs h h2]
  simp

theorem orientZ_asc (lats lons : List ℚ) (Z : List (List ℚ))
    (hla : lats.Pairwise (· < ·)) (hlo : lons.Pairwise (· < ·))
    (hN : 2 ≤ lats.length) (hM : 2 ≤ lons.length) :
    orientZ lats lons Z = Z := by
  unfold orientZ
  rw [incOrder_asc lats hla hN, incOrder_asc lons hlo hM]
  simp

theorem elt_mono (xs : List ℚ) (hs : xs.Pairwise (· < ·)) (i j : ℕ)
    (hij : i ≤ j) (hj : j < xs.length) : elt xs i ≤ elt xs j := by
  rcases Nat.lt_or_ge i j with h | h
  · exact (elt_strict_mono xs hs i j h hj).le
  · have : i = j := by omega
    rw [this]

theorem inBBox_vertex_asc (lats lons : List ℚ) (i j : ℕ)
    (hla : lats.Pairwise (· < ·)) (hlo : lons.Pairwise (· < ·))
    (hN : 2 ≤ lats.length) (hM : 2 ≤ lons.length)
    (hi : i < lats.length) (hj : j < lons.length) :
    inBBox (elt lats i) (elt lons j) lats lons = true := by
  unfold inBBox axisMin axisMax
  rw [incOrder_asc lats hla hN, incOrder_asc lons hlo hM]
  simp only [if_true, Bool.and_eq_true, decide_eq_true_eq]
  refine ⟨⟨⟨?_, ?_⟩, ?_⟩, ?_⟩
  · exact elt_mono lats hla 0 i (by omega) hi
  · exact elt_mono lats hla i (lats.length - 1) (by omega) (by omega)
  · exact elt_mono lons hlo 0 j (by omega) hj
  · exact elt_mono lons hlo j (lons.length - 1) (by omega) (by omega)

theorem z_terrain_eq_some (lat lon : ℚ) (lats lons : List ℚ)
    (Z : List (List ℚ)) (hb : inBBox lat lon lats lons = true)
    (h00 : 0 ≤ (locateCell lat lon lats lons Z).z00)
    (h01 : 0 ≤ (locateCell lat lon lats lons Z).z01)
    (h10 : 0 ≤ (locateCell lat lon lats lons Z).z10)
    (h11 : 0 ≤ (locateCell lat lon lats lons Z).z11) :
    z_terrain lat lon lats lons Z
      = some (bilinear (locateCell lat lon lats lons Z) lat lon) := by
  unfold z_terrain
  rw [if_pos hb]
  dsimp only
  rw [if_neg (not_lt.mpr (le_min (le_min h00 h01) (le_min h10 h11)))]

theorem cellIdx_vertex_asc (xs : List ℚ) (hs : xs.Pairwise (· < ·))
    (h2 : 2 ≤ xs.length) (i : ℕ) (hi : i < xs.length) :
    cellIdx xs (elt xs i) = max i 1 := by
  unfold cellIdx clipIdx
  rw [searchsorted_elt xs hs i hi]
  omega

theorem rowD_reverse (Z : List (List ℚ)) (i : ℕ) (h : i < Z.length) :
    Z.reverse.getD i [] = Z.getD (Z.length - 1 - i) [] := by
  rw [List.getD_eq_getElem?_getD, List.getD_eq_getElem?_getD,
    List.getElem?_reverse h]

theorem rowD_map_reverse (Z : List (List ℚ)) (i : ℕ) (hi : i < Z.length) :
    (Z.map List.reverse).getD i [] = (Z.getD i []).reverse := by
  rw [List.getD_eq_getElem?_getD, List.getD_eq_getElem?_getD,
    List.getElem?_map, List.getElem?_eq_getElem hi]
  rfl

theorem locateCell_flip_lat (lat lon : ℚ) (lats lons : List ℚ)
    (Z : List (List ℚ)) (h : firstD lats ≠ lastD lats) :
    locateCell lat lon lats.reverse lons Z.reverse
      = locateCell lat lon lats lons Z := by
  unfold locateCell
  rw [sortedAxis_reverse lats h, orientZ_flip_lat lats lons Z h]

theorem locateCell_flip_lon (lat lon : ℚ) (lats lons : List ℚ)
    (Z : List (List ℚ)) (h : firstD lons ≠ lastD lons) :
    locateCell lat lon lats lons.reverse (Z.map List.reverse)
      = locateCell lat lon lats lons Z := by
  unfold locateCell
  rw [sortedAxis_reverse lons h, orientZ_flip_lon lats lons Z h]

theorem getD_mem_of_lt (Z : List (List ℚ)) (i : ℕ) (h : i < Z.length) :
    Z.getD i [] ∈ Z := by
  rw [List.getD_eq_getElem?_getD, List.getElem?_eq_getElem h]
  exact List.getElem_mem h

theorem z_terrain_vertex_asc (lats lons : List ℚ) (Z : List (List ℚ))
    (i j : ℕ) (hla : lats.Pairwise (· < ·)) (hlo : lons.Pairwise (· < ·))
    (hN : 2 ≤ lats.length) (hM : 2 ≤ lons.length)
    (hi : i < lats.length) (hj : j < lons.length)
    (h00 : 0 ≤ (locateCell (elt lats i) (elt lons j) lats lons Z).z00)
    (h01 : 0 ≤ (locateCell (elt lats i) (elt lons j) lats lons Z).z01)
    (h10 : 0 ≤ (locateCell (elt lats i) (elt lons j) lats lons Z).z10)
    (h11 : 0 ≤ (locateCell (elt lats i) (elt lons j) lats lons Z).z11) :
    z_terrain (elt lats i) (elt lons j) lats lons Z
      = some (bilinear (locateCell (elt lats i) (elt lons j) lats lons Z)
          (elt lats i) (elt lons j))
    ∧ bilinearExact (locateCell (elt lats i) (elt lons j) lats lons Z)
        (elt lats i) (elt lons j) = zAt Z i j := by
  refine ⟨z_terrain_eq_some _ _ lats lons Z
    (inBBox_vertex_asc lats lons i j hla hlo hN hM hi hj)
    h00 h01 h10 h11, ?_⟩
  have hcell : locateCell (elt lats i) (elt lons j) lats lons Z
      = { lat0 := elt lats (max i 1 - 1), lat1 := elt lats (max i 1)
          lon0 := elt lons (max j 1 - 1), lon1 := elt lons (max j 1)
          z00 := zAt Z (max i 1 - 1) (max j 1 - 1)
          z01 := zAt Z (max i 1 - 1) (max j 1)
          z10 := zAt Z (max i 1) (max j 1 - 1)
          z11 := zAt Z (max i 1) (max j 1) } := by
    unfold locateCell
    rw [sortedAxis_asc lats hla hN, sortedAxis_asc lons hlo hM,
      orientZ_asc lats lons Z hla hlo hN hM]
    dsimp only
    rw [cellIdx_vertex_asc lats hla hN i hi,
      cellIdx_vertex_asc lons hlo hM j hj]
  rw [hcell]
  unfold bilinearExact
  dsimp only
  rcases Nat.eq_zero_or_pos i with rfl | hipos <;>
    rcases Nat.eq_zero_or_pos j with rfl | hjpos
  · rw [show max 0 1 = 1 from rfl, Nat.sub_self]
    rw [sub_self, zero_div, sub_self, zero_div]
    ring
  · rw [show max 0 1 = 1 from rfl, Nat.sub_self,
      show max j 1 = j from by omega]
    have hu : (elt lons j - elt lons (j - 1)) /
        (elt lons j - elt lons (j - 1)) = 1 :=
      div_self (sub_ne_zero.mpr
        (elt_strict_mono lons hlo (j - 1) j (by omega) hj).ne')
    rw [sub_self, zero_div, hu]
    ring
  · rw [show max 0 1 = 1 from rfl, Nat.sub_self,
      show max i 1 = i from by omega]
    have ht : (elt lats i - elt lats (i - 1)) /
        (elt lats i - elt lats (i - 1)) = 1 :=
      div_self (sub_ne_zero.mpr
        (elt_strict_mono lats hla (i - 1) i (by omega) hi).ne')
    rw [sub_self, zero_div, ht]
    ring
  · rw [show max i 1 = i from by omega, show max j 1 = j from by omega]
    have ht : (elt lats i - elt lats (i - 1)) /
        (elt lats i - elt lats (i - 1)) = 1 :=
      div_self (sub_ne_zero.mpr
        (elt_strict_mono lats hla (i - 1) i (by omega) hi).ne')
    have hu : (elt lons j - elt lons (j - 1)) /
        (elt lons j - elt lons (j - 1)) = 1 :=
      div_self (sub_ne_zero.mpr
        (elt_strict_mono lons hlo (j - 1) j (by omega) hj).ne')
    rw [ht, hu]
    ring

theorem z_terrain_vertex_lonasc (lats lons : List ℚ) (Z : List (List ℚ))
    (i j : ℕ) (hla : lats.Pairwise (· < ·) ∨ lats.Pairwise (· > ·))
    (hlo : lons.Pairwise (· < ·))
    (hN : 2 ≤ lats.length) (hM : 2 ≤ lons.length)
    (hi : i < lats.length) (hj : j < lons.length)
    (hZ : Z.length = lats.length)
    (h00 : 0 ≤ (locateCell (elt lats i) (elt lons j) lats lons Z).z00)
    (h01 : 0 ≤ (locateCell (elt lats i) (elt lons j) lats lons Z).z01)
    (h10 : 0 ≤ (locateCell (elt lats i) (elt lons j) lats lons Z).z10)
    (h11 : 0 ≤ (locateCell (elt lats i) (elt lons j) lats lons Z).z11) :
    z_terrain (elt lats i) (elt lons j) lats lons Z
      = some (bilinear (locateCell (elt lats i) (elt lons j) lats lons Z)
          (elt lats i) (elt lons j))
    ∧ bilinearExact (locateCell (elt lats i) (elt lons j) lats lons Z)
        (elt lats i) (elt lons j) = zAt Z i j := by
  rcases hla with hasc | hdesc
  · exact z_terrain_vertex_asc lats lons Z i j hasc hlo hN hM hi hj
      h00 h01 h10 h11
  · have hne : firstD lats ≠ lastD lats :=
      ne_first_last lats (Or.inr hdesc) hN
    have hasc' : lats.reverse.Pairwise (· < ·) :=
      List.pairwise_reverse.mpr hdesc
    have hieq : elt lats i = elt lats.reverse (lats.length - 1 - i) := by
      rw [elt_reverse lats (lats.length - 1 - i) (by omega)]
      congr 1
      omega
    have hZrows : zAt Z.reverse (lats.length - 1 - i) j = zAt Z i j := by
      unfold zAt
      rw [rowD_reverse Z (lats.length - 1 - i) (by omega)]
      congr 2
      omega
    have H := z_terrain_vertex_asc lats.reverse lons Z.reverse
      (lats.length - 1 - i) j hasc' hlo (by simpa using hN) hM
      (by rw [List.length_reverse]; omega) hj
      (by rw [← hieq, locateCell_flip_lat _ _ lats lons Z hne]; exact h00)
      (by rw [← hieq, locateCell_flip_lat _ _ lats lons Z hne]; exact h01)
      (by rw [← hieq, locateCell_flip_lat _ _ lats lons Z hne]; exact h10)
      (by rw [← hieq, locateCell_flip_lat _ _ lats lons Z hne]; exact h11)
    rw [← hieq, locateCell_flip_lat _ _ lats lons Z hne,
      z_terrain_flip_lat _ _ lats lons Z hne, hZrows] at H
    exact H

/-! ### C5 : vertex queries and the bilinear blend -/

/-- C5: on a monotonic grid (ascending or descending axes), querying
`z_terrain` exactly at a grid vertex whose enclosing-cell corners carry
data returns precisely the bilinear blend
`(1-t)((1-u)z00 + u z01) + t((1-u)z10 + u z11)` of the four cell corners
with the epsilon-guarded offsets `t = (lat-lat0)/(lat1-lat0+eps)` and
`u = (lon-lon0)/(lon1-lon0+eps)`; removing the guard from those offsets
makes the very same blend equal the stored vertex elevation exactly, so the
returned value is exact up to the perturbation introduced by the guard. -/
theorem z_terrain_vertex_spec :
    ∀ (lats lons : List ℚ) (Z : List (List ℚ)) (i j : ℕ),
      (lats.Pairwise (· < ·) ∨ lats.Pairwise (· > ·)) →
      (lons.Pairwise (· < ·) ∨ lons.Pairwise (· > ·)) →
      2 ≤ lats.length → 2 ≤ lons.length →
      i < lats.length → j < lons.length →
      Z.length = lats.length →
      (∀ row ∈ Z, row.length = lons.length) →
      0 ≤ (locateCell (elt lats i) (elt lons j) lats lons Z).z00 →
      0 ≤ (locateCell (elt lats i) (elt lons j) lats lons Z).z01 →
      0 ≤ (locateCell (elt lats i) (elt lons j) lats lons Z).z10 →
      0 ≤ (locateCell (elt lats i) (elt lons j) lats lons Z).z11 →
      z_terrain (elt lats i) (elt lons j) lats lons Z
        = some (bilinear (locateCell (elt lats i) (elt lons j) lats lons Z)
            (elt lats i) (elt lons j))
      ∧ bilinearExact (locateCell (elt lats i) (elt lons j) lats lons Z)
          (elt lats i) (elt lons j) = zAt Z i j := by
  intro lats lons Z i j hla hlo hN hM hi hj hZ hrow h00 h01 h10 h11
  rcases hlo with hloasc | hlodesc
  · exact z_terrain_vertex_lonasc lats lons Z i j hla hloasc hN hM hi hj
      hZ h00 h01 h10 h11
  · have hne : firstD lons ≠ lastD lons :=
      ne_first_last lons (Or.inr hlodesc) hM
    have hloasc' : lons.reverse.Pairwise (· < ·) :=
      List.pairwise_reverse.mpr hlodesc
    have hjeq : elt lons j = elt lons.reverse (lons.length - 1 - j) := by
      rw [elt_reverse lons (lons.length - 1 - j) (by omega)]
      congr 1
      omega
    have hiZ : i < Z.length := by omega
    have hrlen : (Z.getD i []).length = lons.length :=
      hrow (Z.getD i []) (getD_mem_of_lt Z i hiZ)
    have hZcols : zAt (Z.map List.reverse) i (lons.length - 1 - j)
        = zAt Z i j := by
      unfold zAt
      rw [rowD_map_reverse Z i hiZ]
      show elt (Z.getD i []).reverse (lons.length - 1 - j)
        = elt (Z.getD i []) j
      rw [elt_reverse (Z.getD i []) (lons.length - 1 - j) (by omega)]
      congr 1
      omega
    have H := z_terrain_vertex_lonasc lats lons.reverse
      (Z.map List.reverse) i (lons.length - 1 - j) hla hloasc' hN
      (by rw [List.length_reverse]; omega)
      hi (by rw [List.length_reverse]; omega)
      (by rw [List.length_map]; omega)
      (by rw [← hjeq, locateCell_flip_lon _ _ lats lons Z hne]; exact h00)
      (by rw [← hjeq, locateCell_flip_lon _ _ lats lons Z hne]; exact h01)
      (by rw [← hjeq, locateCell_flip_lon _ _ lats lons Z hne]; exact h10)
      (by rw [← hjeq, locateCell_flip_lon _ _ lats lons Z hne]; exact h11)
    rw [← hjeq, locateCell_flip_lon _ _ lats lons Z hne,
      z_terrain_flip_lon _ _ lats lons Z hne, hZcols] at H
    exact H

/-- Concrete instance of the C5 theorem at the vertex `(1, 1)` of a 2×2
ascending grid. -/
theorem z_terrain_vertex_spec_witness :
    z_terrain (elt [(0 : ℚ), 1] 1) (elt [(0 : ℚ), 1] 1)
        [(0 : ℚ), 1] [(0 : ℚ), 1] [[(1 : ℚ), 2], [3, 4]]
      = some (bilinear
          (locateCell (elt [(0 : ℚ), 1] 1) (elt [(0 : ℚ), 1] 1)
            [(0 : ℚ), 1] [(0 : ℚ), 1] [[(1 : ℚ), 2], [3, 4]])
          (elt [(0 : ℚ), 1] 1) (elt [(0 : ℚ), 1] 1))
    ∧ bilinearExact
        (locateCell (elt [(0 : ℚ), 1] 1) (elt [(0 : ℚ), 1] 1)
          [(0 : ℚ), 1] [(0 : ℚ), 1] [[(1 : ℚ), 2], [3, 4]])
        (elt [(0 : ℚ), 1] 1) (elt [(0 : ℚ), 1] 1)
      = zAt [[(1 : ℚ), 2], [3, 4]] 1 1 :=
  z_terrain_vertex_spec [(0 : ℚ), 1] [(0 : ℚ), 1] [[(1 : ℚ), 2], [3, 4]]
    1 1 (Or.inl (by decide)) (Or.inl (by decide)) (by decide) (by decide)
    (by decide) (by decide) (by decide) (by decide) (by decide) (by decide)
    (by decide) (by decide)
